import Mathlib

/-
Verification of the JOSS harvesting pipeline (src/main.py, src/db.py).

The embedding models the three-stage extract-link-persist pipeline:
  * network fetches are an oracle `String → Option (Response α)`; `none`
    models an exception raised by requests.get (the code has no try/except,
    so a failed task never appends to the shared result list);
  * the HTML query primitives (BeautifulSoup find / find_all) are black
    boxes per the spec, so a parsed document is modelled directly as the
    record of query results the code reads from it: a listing page is its
    list of paper-card fragments, a paper landing page is the href of the
    first anchor of its vertical button group (or `none` when the button
    group or anchor or href is absent, in which case the Python code hits
    an AttributeError, modelled as `none` propagating);
  * the Python string primitives are modelled by explicit structural
    functions on the character list of a string, so that every theorem can
    be evaluated on concrete inputs: str.strip() drops leading and
    trailing whitespace characters, str.split("=") splits on the equals
    character, int(...) parses a nonempty all-digit string, and the
    substring test `"..." in doi` is character-list containment;
  * concurrency: each ThreadPoolExecutor batch appends results to a shared
    list in an unspecified completion order, so theorems quantify over an
    arbitrary permutation of the successfully fetched results;
  * pandas DataFrames are lists of records; the DataFrame index (used by
    to_sql as the explicit id column) is the list position, and
    sort_values(by="page", ignore_index=True) is a sort on the page key.
-/

/-- A fetched HTTP response: final url, status code, and parsed body. -/
structure Response (α : Type) where
  url : String
  status_code : Nat
  content : α
deriving DecidableEq

/-- One language-badge fragment of a paper card: its text and the href of
its inner anchor (`none` when the anchor or its href attribute is absent,
which makes the Python code raise). -/
structure BadgeFragment where
  text : String
  href : Option String
deriving DecidableEq

/-- The submitted_by fragment of a paper card: its text and the href of its
inner anchor. -/
structure SubmitterFragment where
  text : String
  href : Option String
deriving DecidableEq

/-- One paper-card fragment of a listing page, as the record of the query
results extractPaperMetadata reads from it.  A `none` field means the
corresponding find / get returned None (AttributeError on use). -/
structure CardFragment where
  statusBadge : Option String
  time : Option String
  title : Option String
  badges : List BadgeFragment
  submitter : Option SubmitterFragment
  doiAnchor : Option String
deriving DecidableEq

/-- A parsed listing page: its paper cards in document order. -/
structure FrontHtml where
  cards : List CardFragment
deriving DecidableEq

/-- A parsed paper landing page: the href of the first anchor inside the
btn-group-vertical div, or `none` when the div, the anchor, or the href is
absent (AttributeError in the Python code). -/
structure LandingHtml where
  repoAnchor : Option String
deriving DecidableEq

/-- One row of the front_matter DataFrame. -/
structure FMRow where
  url : String
  page : Nat
  status_code : Nat
  html : FrontHtml
deriving DecidableEq

/-- An extracted language badge. -/
structure Badge where
  language : String
  uri : String
deriving DecidableEq

/-- The extracted submitter datum. -/
structure Submitter where
  submitter : String
  github : String
deriving DecidableEq

/-- One row of the metadata DataFrame (field order as built in the code). -/
structure MetadataRecord where
  front_matter_id : Nat
  status : String
  time : String
  title : String
  badges : List Badge
  submitter : Submitter
  doi : String
deriving DecidableEq

/-- One row of the software DataFrame. -/
structure SoftwareRecord where
  metadata_id : Nat
  status_code : Nat
  repository_url : String
  html : LandingHtml
deriving DecidableEq

/-- Python str.strip() on a character list: drop leading and trailing
whitespace. -/
def stripChars (l : List Char) : List Char :=
  ((l.dropWhile Char.isWhitespace).reverse.dropWhile Char.isWhitespace).reverse

/-- Python str.strip(). -/
def pyStrip (s : String) : String :=
  ⟨stripChars s.data⟩

/-- Python str.split(sep) for a one-character separator, on character
lists. -/
def splitOnChar (sep : Char) : List Char → List (List Char)
  | [] => [[]]
  | c :: cs =>
    if c = sep then [] :: splitOnChar sep cs
    else
      match splitOnChar sep cs with
      | [] => [[c]]
      | h :: t => (c :: h) :: t

/-- Digit accumulator of int(...). -/
def parseNatFrom (acc : Nat) : List Char → Option Nat
  | [] => some acc
  | c :: cs =>
    if c.isDigit then parseNatFrom (acc * 10 + (c.toNat - 48)) cs else none

/-- Python int(...) on a nonempty all-digit string; `none` models the
ValueError raised on anything else. -/
def parseNat (s : String) : Option Nat :=
  match s.data with
  | [] => none
  | l => parseNatFrom 0 l

/-- getPage: a single blocking GET against the network oracle; `none`
models the requests exception escaping (the function body has no
try/except, its docstring notwithstanding). -/
def getPage (net : String → Option (Response α)) (url : String) :
    Option (Response α) :=
  net url

/-- The pagination arithmetic of getTotalNumberOfDocumentsAndPages, given
the total document count parsed from the second bold value of the
pagination summary; returns the (docs, pages) pair. -/
def getTotalNumberOfDocumentsAndPages (totalDocs : Nat) : Nat × Nat :=
  (totalDocs, if totalDocs % 20 ≠ 0 then totalDocs / 20 + 1 else totalDocs / 20)

/-- The listing page url fetched for a given page number. -/
def pageURL (p : Nat) : String :=
  "https://joss.theoj.org/papers?page=" ++ toString p

/-- The shared resps list collected by the page-fetch ThreadPoolExecutor,
in submission order; a failed fetch (oracle `none`, an exception inside
_run) appends nothing.  Completion order is an arbitrary permutation of
this list, which theorems quantify over. -/
def pageFetchResults (net : String → Option (Response FrontHtml))
    (pages : Nat) : List (Response FrontHtml) :=
  (List.range' 1 pages).filterMap (fun p => getPage net (pageURL p))

/-- int(resp.url.split("=")[1]): the page number encoded in a response
url. -/
def parsePage (url : String) : Option Nat :=
  ((splitOnChar '=' url.data).get? 1).bind (fun l => parseNat ⟨l⟩)

/-- One row of the front_matter data dict, built from one response. -/
def mkFMRow (r : Response FrontHtml) : Option FMRow :=
  (parsePage r.url).map (fun p =>
    { url := r.url, page := p, status_code := r.status_code, html := r.content })

/-- The metadata-extraction loop over the collected responses (url, page,
status_code, html per response); `none` when int() fails on some url. -/
def extractRespRows : List (Response FrontHtml) → Option (List FMRow)
  | [] => some []
  | r :: rs => do
    let row ← mkFMRow r
    let rows ← extractRespRows rs
    pure (row :: rows)

/-- The boolean sort key of sort_values(by="page"). -/
def rowLe (a b : FMRow) : Bool :=
  decide (a.page ≤ b.page)

/-- getJOSSHTMLFrontMatter after the fetch barrier: build the data dict
from the collected responses, then sort by page ascending with
ignore_index=True (row position becomes the dense id). -/
def getJOSSHTMLFrontMatter (resps : List (Response FrontHtml)) :
    Option (List FMRow) :=
  (extractRespRows resps).map (fun rows => rows.mergeSort rowLe)

/-- Does the character list pat occur at the start of l. -/
def charsStartWith : List Char → List Char → Bool
  | _, [] => true
  | [], _ :: _ => false
  | c :: cs, p :: ps => c == p && charsStartWith cs ps

/-- Does the character list pat occur anywhere inside l (Python `in`). -/
def charsContain : List Char → List Char → Bool
  | [], pat => pat.isEmpty
  | c :: cs, pat => charsStartWith (c :: cs) pat || charsContain cs pat

/-- Python substring test `pat in s`. -/
def strContainsSub (s pat : String) : Bool :=
  charsContain s.data pat.data

/-- The canonical origin string the code tests for and prepends. -/
def canonicalOrigin : String :=
  "https://joss.theoj.org"

/-- The doi branch of extractPaperMetadata: if the target contains the
canonical origin as a substring (`doi.__contains__`), keep it, else
prepend the origin. -/
def normalizeDOI (doi : String) : String :=
  if strContainsSub doi canonicalOrigin then doi else canonicalOrigin ++ doi

/-- The normalization rule as the claim words it: prepend the canonical
origin exactly when the target does not start with it.  Stated only to be
compared against normalizeDOI, which is translated from the code. -/
def claimNormalizeDOI (doi : String) : String :=
  if charsStartWith doi.data canonicalOrigin.data then doi
  else canonicalOrigin ++ doi

/-- One iteration of the badge loop: language text and inner anchor href,
both stripped; `none` when the anchor or href is absent (AttributeError).
-/
def extractBadge (b : BadgeFragment) : Option Badge :=
  b.href.map (fun h => { language := pyStrip b.text, uri := pyStrip h })

/-- The badge loop over the badge fragments of one card, in document
order. -/
def extractBadges : List BadgeFragment → Option (List Badge)
  | [] => some []
  | b :: bs => do
    let x ← extractBadge b
    let xs ← extractBadges bs
    pure (x :: xs)

/-- The per-card body of extractPaperMetadata: status, time, title, the
badge loop, the submitter fragment, the doi anchor with its normalization;
any absent required node makes the Python code raise, modelled as `none`. -/
def extractCard (fmId : Nat) (card : CardFragment) : Option MetadataRecord := do
  let status ← card.statusBadge
  let time ← card.time
  let title ← card.title
  let badges ← extractBadges card.badges
  let sub ← card.submitter
  let subHref ← sub.href
  let doiHref ← card.doiAnchor
  pure
    { front_matter_id := fmId
      status := pyStrip status
      time := pyStrip time
      title := pyStrip title
      badges := badges
      submitter := { submitter := pyStrip sub.text, github := pyStrip subHref }
      doi := normalizeDOI (pyStrip doiHref) }

/-- The card loop over one listing page. -/
def extractCards (fmId : Nat) : List CardFragment → Option (List MetadataRecord)
  | [] => some []
  | c :: cs => do
    let r ← extractCard fmId c
    let rs ← extractCards fmId cs
    pure (r :: rs)

/-- The df.iterrows() loop of extractPaperMetadata, carrying the running
row index idx. -/
def extractRowsFrom (i : Nat) : List FMRow → Option (List MetadataRecord)
  | [] => some []
  | row :: rest => do
    let recs ← extractCards i row.html.cards
    let more ← extractRowsFrom (i + 1) rest
    pure (recs ++ more)

/-- extractPaperMetadata: iterate the front-matter rows in index order
(the RangeIndex 0..n-1 left by ignore_index=True), emitting the records
of each page in card order. -/
def extractPaperMetadata (rows : List FMRow) : Option (List MetadataRecord) :=
  extractRowsFrom 0 rows

/-- list(df["doi"].to_dict().items()): the (metadata id, doi) pairs in
index order. -/
def doiTasks (mdRecs : List MetadataRecord) : List (Nat × String) :=
  (mdRecs.map (fun r => r.doi)).enum

/-- The shared resps list of the doi-fetch ThreadPoolExecutor, in
submission order; a failed fetch appends nothing, a successful one appends
the pair of the carried task index and the response.  Completion order is
an arbitrary permutation of this list. -/
def doiFetchResults (net : String → Option (Response LandingHtml))
    (tasks : List (Nat × String)) : List (Nat × Response LandingHtml) :=
  tasks.filterMap (fun t => (getPage net t.2).map (fun r => (t.1, r)))

/-- The per-response body of the second loop of
extractRepositoryFromMetadata: find the button group and read the first
anchor href; `none` (AttributeError) when the button group, anchor, or
href is absent. -/
def extractRepoRecord (t : Nat × Response LandingHtml) : Option SoftwareRecord :=
  t.2.content.repoAnchor.map (fun h =>
    { metadata_id := t.1
      status_code := t.2.status_code
      repository_url := h
      html := t.2.content })

/-- The extraction loop of extractRepositoryFromMetadata over the collected
(metadataID, resp) pairs; an AttributeError on any response aborts the
whole pass (`none`). -/
def extractRepositoryFromMetadata :
    List (Nat × Response LandingHtml) → Option (List SoftwareRecord)
  | [] => some []
  | t :: ts => do
    let r ← extractRepoRecord t
    let rs ← extractRepositoryFromMetadata ts
    pure (r :: rs)

/-- df.to_sql(..., index=True, index_label="id"): append the rows in
DataFrame order, each with its index position as the explicit stored id. -/
def persistTable (rows : List α) : List (Nat × α) :=
  rows.enum

/-- Sample paper card of the synthetic listing page 1. -/
def cardA : CardFragment :=
  { statusBadge := some "Published"
    time := some "t1"
    title := some "A"
    badges := [{ text := "Python", href := some "/l/py" }]
    submitter := some { text := "SA", href := some "/ga" }
    doiAnchor := some "/papers/10.A" }

/-- Sample paper card of the synthetic listing page 2. -/
def cardB : CardFragment :=
  { statusBadge := some "Accepted"
    time := some "t2"
    title := some "B"
    badges := []
    submitter := some { text := "SB", href := some "/gb" }
    doiAnchor := some "/papers/10.B" }

/-- Response for the synthetic listing page 1. -/
def pageResp1 : Response FrontHtml :=
  { url := pageURL 1, status_code := 200, content := { cards := [cardA] } }

/-- Response for the synthetic listing page 2. -/
def pageResp2 : Response FrontHtml :=
  { url := pageURL 2, status_code := 200, content := { cards := [cardB] } }

/-- Network oracle serving the two synthetic listing pages. -/
def netPages : String → Option (Response FrontHtml) := fun u =>
  if u = pageURL 1 then some pageResp1
  else if u = pageURL 2 then some pageResp2
  else none

/-- Network oracle where the fetch of listing page 2 raises. -/
def netPagesOneDown : String → Option (Response FrontHtml) := fun u =>
  if u = pageURL 1 then some pageResp1 else none

/-- Front-matter row of the synthetic listing page 1. -/
def rowP1 : FMRow :=
  { url := pageURL 1, page := 1, status_code := 200, html := { cards := [cardA] } }

/-- Front-matter row of the synthetic listing page 2. -/
def rowP2 : FMRow :=
  { url := pageURL 2, page := 2, status_code := 200, html := { cards := [cardB] } }

/-- Metadata record extracted from cardA on page 1. -/
def recA : MetadataRecord :=
  { front_matter_id := 0
    status := "Published"
    time := "t1"
    title := "A"
    badges := [{ language := "Python", uri := "/l/py" }]
    submitter := { submitter := "SA", github := "/ga" }
    doi := "https://joss.theoj.org/papers/10.A" }

/-- Metadata record extracted from cardB on page 2. -/
def recB : MetadataRecord :=
  { front_matter_id := 1
    status := "Accepted"
    time := "t2"
    title := "B"
    badges := []
    submitter := { submitter := "SB", github := "/gb" }
    doi := "https://joss.theoj.org/papers/10.B" }

/-- Metadata record whose doi landing page fails to fetch. -/
def recNoPage : MetadataRecord :=
  { front_matter_id := 1
    status := "Published"
    time := "t3"
    title := "C"
    badges := []
    submitter := { submitter := "SC", github := "/gc" }
    doi := "https://joss.theoj.org/papers/10.C" }

/-- Landing page response for the doi of recA. -/
def landRespA : Response LandingHtml :=
  { url := "https://joss.theoj.org/papers/10.A"
    status_code := 200
    content := { repoAnchor := some "https://github.com/x/a" } }

/-- Landing page response for the doi of recB. -/
def landRespB : Response LandingHtml :=
  { url := "https://joss.theoj.org/papers/10.B"
    status_code := 200
    content := { repoAnchor := some "https://github.com/x/b" } }

/-- Network oracle serving both synthetic landing pages. -/
def netLanding : String → Option (Response LandingHtml) := fun u =>
  if u = recA.doi then some landRespA
  else if u = recB.doi then some landRespB
  else none

/-- Network oracle where the landing page of recA has no vertical button
group, while recB fetches fine and its repository link is present. -/
def netLandingNoGroup : String → Option (Response LandingHtml) := fun u =>
  if u = recA.doi then
    some { url := recA.doi, status_code := 200, content := { repoAnchor := none } }
  else if u = recB.doi then some landRespB
  else none

/-- Software record for recA. -/
def swA : SoftwareRecord :=
  { metadata_id := 0
    status_code := 200
    repository_url := "https://github.com/x/a"
    html := { repoAnchor := some "https://github.com/x/a" } }

/-- Software record for recB. -/
def swB : SoftwareRecord :=
  { metadata_id := 1
    status_code := 200
    repository_url := "https://github.com/x/b"
    html := { repoAnchor := some "https://github.com/x/b" } }

/-- Sample paper card carrying two language badges. -/
def sampleCard : CardFragment :=
  { statusBadge := some "Published"
    time := some "about 1 hour ago"
    title := some "T"
    badges := [{ text := "Python", href := some "/l/py" },
               { text := "C++", href := some "/l/cpp" }]
    submitter := some { text := "Jane", href := some "https://github.com/jane" }
    doiAnchor := some "/papers/10.1234" }

/-- The metadata record extractCard emits for sampleCard at index 0. -/
def sampleCardRec : MetadataRecord :=
  { front_matter_id := 0
    status := "Published"
    time := "about 1 hour ago"
    title := "T"
    badges := [{ language := "Python", uri := "/l/py" },
               { language := "C++", uri := "/l/cpp" }]
    submitter := { submitter := "Jane", github := "https://github.com/jane" }
    doi := "https://joss.theoj.org/papers/10.1234" }

/-- The per-card extraction chain written as explicit Option binds. -/
theorem extractCard_def (fmId : Nat) (card : CardFragment) :
    extractCard fmId card =
      card.statusBadge.bind (fun status =>
        card.time.bind (fun time =>
          card.title.bind (fun title =>
            (extractBadges card.badges).bind (fun badges =>
              card.submitter.bind (fun sub =>
                sub.href.bind (fun subHref =>
                  card.doiAnchor.bind (fun doiHref =>
                    some
                      { front_matter_id := fmId
                        status := pyStrip status
                        time := pyStrip time
                        title := pyStrip title
                        badges := badges
                        submitter := { submitter := pyStrip sub.text
                                       github := pyStrip subHref }
                        doi := normalizeDOI (pyStrip doiHref) }))))))) :=
  rfl

/-- Inversion of the per-card extraction chain. -/
theorem extractCard_eq_some {fmId : Nat} {card : CardFragment}
    {rec : MetadataRecord} (h : extractCard fmId card = some rec) :
    ∃ status time title badges sub subHref doiHref,
      card.statusBadge = some status ∧ card.time = some time ∧
      card.title = some title ∧ extractBadges card.badges = some badges ∧
      card.submitter = some sub ∧ sub.href = some subHref ∧
      card.doiAnchor = some doiHref ∧
      rec = { front_matter_id := fmId
              status := pyStrip status
              time := pyStrip time
              title := pyStrip title
              badges := badges
              submitter := { submitter := pyStrip sub.text
                             github := pyStrip subHref }
              doi := normalizeDOI (pyStrip doiHref) } := by
  simp only [extractCard_def, Option.bind_eq_some, Option.some.injEq] at h
  obtain ⟨status, hst, time, htm, title, hti, badges, hbd, sub, hsu,
    subHref, hsh, doiHref, hda, hrec⟩ := h
  exact ⟨status, time, title, badges, sub, subHref, doiHref,
    hst, htm, hti, hbd, hsu, hsh, hda, hrec.symm⟩

/-- C3: for every non-negative totalDocs the pagination resolver computes
totalPages as totalDocs / 20 plus one exactly when 20 does not divide
totalDocs; 100 documents give 5 pages, 101 give 6, 0 give 0. -/
theorem getTotalNumberOfDocumentsAndPages_pages :
    (∀ totalDocs : Nat, (getTotalNumberOfDocumentsAndPages totalDocs).2 =
      totalDocs / 20 + (if totalDocs % 20 ≠ 0 then 1 else 0)) ∧
    (getTotalNumberOfDocumentsAndPages 100).2 = 5 ∧
    (getTotalNumberOfDocumentsAndPages 101).2 = 6 ∧
    (getTotalNumberOfDocumentsAndPages 0).2 = 0 := by
  refine ⟨fun d => ?_, rfl, rfl, rfl⟩
  by_cases h : d % 20 = 0 <;> simp [getTotalNumberOfDocumentsAndPages, h]

/-- C4 counterexample: the code tests substring containment, not the
claimed missing-leading-origin condition.  The target below does not start
with the canonical origin, so the claim demands the origin be prepended,
yet the code returns it unchanged because the origin occurs inside it. -/
theorem normalizeDOI_contains_not_startsWith_cex :
    charsStartWith ("/see?ref=https://joss.theoj.org").data
      canonicalOrigin.data = false ∧
    normalizeDOI "/see?ref=https://joss.theoj.org" =
      "/see?ref=https://joss.theoj.org" ∧
    normalizeDOI "/see?ref=https://joss.theoj.org" ≠
      canonicalOrigin ++ "/see?ref=https://joss.theoj.org" ∧
    normalizeDOI "/see?ref=https://joss.theoj.org" ≠
      claimNormalizeDOI "/see?ref=https://joss.theoj.org" := by
  exact ⟨rfl, rfl, by decide, by decide⟩

/-- C4 (amended): for every DOI anchor target extracted, the emitted doi
is the stripped target with the canonical origin prepended exactly when
the target does not contain the origin as a substring (it is left
unchanged whenever the origin occurs anywhere inside it), and this is the
only transformation applied; the two concrete examples of the claim hold. -/
theorem extractCard_doi_normalization :
    (∀ fmId card rec, extractCard fmId card = some rec →
      ∃ target, card.doiAnchor = some target ∧
        rec.doi = (if strContainsSub (pyStrip target) canonicalOrigin
                   then pyStrip target
                   else canonicalOrigin ++ pyStrip target)) ∧
    normalizeDOI "/papers/10.1234" = "https://joss.theoj.org/papers/10.1234" ∧
    normalizeDOI "https://joss.theoj.org/papers/10.5555" =
      "https://joss.theoj.org/papers/10.5555" := by
  refine ⟨?_, by decide, by decide⟩
  intro fmId card rec h
  obtain ⟨status, time, title, badges, sub, subHref, doiHref,
    _, _, _, _, _, _, hda, hrec⟩ := extractCard_eq_some h
  subst hrec
  exact ⟨doiHref, hda, rfl⟩

/-- Witness for the amended C4 at a concrete card. -/
theorem extractCard_doi_normalization_witness :
    ∃ target, sampleCard.doiAnchor = some target ∧
      sampleCardRec.doi = (if strContainsSub (pyStrip target) canonicalOrigin
                           then pyStrip target
                           else canonicalOrigin ++ pyStrip target) :=
  extractCard_doi_normalization.1 0 sampleCard sampleCardRec (by decide)

/-- C6 (code bug): getPage has no exception handling, so a failed fetch
task appends nothing to the shared resps list; no failure result with a
None status is ever recorded.  With the only page failing the collected
list is empty, and with page 2 of 2 failing only the page 1 response is
recorded. -/
theorem getPage_failure_records_nothing :
    pageFetchResults (fun _ => none) 1 = [] ∧
    pageFetchResults netPagesOneDown 2 = [pageResp1] := by
  exact ⟨rfl, by decide⟩

/-- Unfolding equation of the badge loop on nil. -/
theorem extractBadges_nil : extractBadges [] = some [] :=
  rfl

/-- Unfolding equation of the badge loop on cons. -/
theorem extractBadges_cons (b : BadgeFragment) (bs : List BadgeFragment) :
    extractBadges (b :: bs) =
      (extractBadge b).bind (fun x =>
        (extractBadges bs).bind (fun xs => some (x :: xs))) :=
  rfl

/-- Unfolding equation of the card loop on nil. -/
theorem extractCards_nil (fmId : Nat) : extractCards fmId [] = some [] :=
  rfl

/-- Unfolding equation of the card loop on cons. -/
theorem extractCards_cons (fmId : Nat) (c : CardFragment)
    (cs : List CardFragment) :
    extractCards fmId (c :: cs) =
      (extractCard fmId c).bind (fun r =>
        (extractCards fmId cs).bind (fun rs => some (r :: rs))) :=
  rfl

/-- Unfolding equation of the row loop on nil. -/
theorem extractRowsFrom_nil (i : Nat) : extractRowsFrom i [] = some [] :=
  rfl

/-- Unfolding equation of the row loop on cons. -/
theorem extractRowsFrom_cons (i : Nat) (row : FMRow) (rest : List FMRow) :
    extractRowsFrom i (row :: rest) =
      (extractCards i row.html.cards).bind (fun recs =>
        (extractRowsFrom (i + 1) rest).bind (fun more => some (recs ++ more))) :=
  rfl

/-- Unfolding equation of the response-row loop on cons. -/
theorem extractRespRows_cons (r : Response FrontHtml)
    (rs : List (Response FrontHtml)) :
    extractRespRows (r :: rs) =
      (mkFMRow r).bind (fun row =>
        (extractRespRows rs).bind (fun rows => some (row :: rows))) :=
  rfl

/-- Unfolding equation of the repository loop on cons. -/
theorem extractRepositoryFromMetadata_cons (t : Nat × Response LandingHtml)
    (ts : List (Nat × Response LandingHtml)) :
    extractRepositoryFromMetadata (t :: ts) =
      (extractRepoRecord t).bind (fun r =>
        (extractRepositoryFromMetadata ts).bind (fun rs => some (r :: rs))) :=
  rfl

/-- A successful badge loop maps each fragment in order to its stripped
language text and stripped anchor href. -/
theorem extractBadges_eq_map {bs : List BadgeFragment} {l : List Badge}
    (h : extractBadges bs = some l) :
    l = bs.map (fun b =>
      { language := pyStrip b.text, uri := pyStrip (b.href.getD "") }) := by
  induction bs generalizing l with
  | nil =>
    rw [extractBadges_nil] at h
    injection h with h
    subst h
    rfl
  | cons b bs ih =>
    rw [extractBadges_cons] at h
    simp only [Option.bind_eq_some, Option.some.injEq] at h
    obtain ⟨x, hx, xs, hxs, rfl⟩ := h
    simp only [extractBadge, Option.map_eq_some'] at hx
    obtain ⟨a, ha, rfl⟩ := hx
    simp [ha, ih hxs]

/-- C9: the badges field lists one language and uri pair per badge
fragment of the card, in document order; in particular the two-badge card
with Python and C++ fragments yields exactly those two badges in that
order. -/
theorem extractCard_badges_document_order :
    (∀ fmId card rec, extractCard fmId card = some rec →
      rec.badges = card.badges.map (fun b =>
        { language := pyStrip b.text, uri := pyStrip (b.href.getD "") })) ∧
    (extractCard 0 sampleCard).map (fun rec => rec.badges) =
      some [{ language := "Python", uri := "/l/py" },
            { language := "C++", uri := "/l/cpp" }] := by
  refine ⟨?_, by decide⟩
  intro fmId card rec h
  obtain ⟨status, time, title, badges, sub, subHref, doiHref,
    _, _, _, hbd, _, _, _, hrec⟩ := extractCard_eq_some h
  subst hrec
  exact extractBadges_eq_map hbd

/-- Witness for C9 at the concrete two-badge card. -/
theorem extractCard_badges_document_order_witness :
    sampleCardRec.badges = sampleCard.badges.map (fun b =>
      { language := pyStrip b.text, uri := pyStrip (b.href.getD "") }) :=
  extractCard_badges_document_order.1 0 sampleCard sampleCardRec (by decide)

/-- The front-matter id written by extractCard is the index it was called
with. -/
theorem extractCard_fmId {fmId : Nat} {card : CardFragment}
    {rec : MetadataRecord} (h : extractCard fmId card = some rec) :
    rec.front_matter_id = fmId := by
  obtain ⟨status, time, title, badges, sub, subHref, doiHref,
    _, _, _, _, _, _, _, hrec⟩ := extractCard_eq_some h
  subst hrec
  rfl

/-- Every record of a successful card loop comes from one of its cards. -/
theorem extractCards_mem {fmId : Nat} {cs : List CardFragment}
    {rs : List MetadataRecord} (h : extractCards fmId cs = some rs) :
    ∀ r ∈ rs, ∃ c ∈ cs, extractCard fmId c = some r := by
  induction cs generalizing rs with
  | nil =>
    rw [extractCards_nil] at h
    injection h with h
    subst h
    intro r hr
    exact absurd hr (List.not_mem_nil r)
  | cons c cs ih =>
    rw [extractCards_cons] at h
    simp only [Option.bind_eq_some, Option.some.injEq] at h
    obtain ⟨x, hx, xs, hxs, rfl⟩ := h
    intro r hr
    rcases List.mem_cons.mp hr with rfl | hr
    · exact ⟨c, List.mem_cons_self c cs, hx⟩
    · obtain ⟨c', hc', he⟩ := ih hxs r hr
      exact ⟨c', List.mem_cons_of_mem c hc', he⟩

/-- Every record of a successful row loop starting at index i comes from
the cards of the row at offset j, carries front-matter id i + j, and was
produced by extractCard at that id. -/
theorem extractRowsFrom_mem {rows : List FMRow} {i : Nat}
    {out : List MetadataRecord} (h : extractRowsFrom i rows = some out) :
    ∀ rec ∈ out, ∃ j, ∃ hj : j < rows.length,
      rec.front_matter_id = i + j ∧
      ∃ card ∈ (rows.get ⟨j, hj⟩).html.cards,
        extractCard (i + j) card = some rec := by
  induction rows generalizing i out with
  | nil =>
    rw [extractRowsFrom_nil] at h
    injection h with h
    subst h
    intro rec hrec
    exact absurd hrec (List.not_mem_nil rec)
  | cons row rest ih =>
    rw [extractRowsFrom_cons] at h
    simp only [Option.bind_eq_some, Option.some.injEq] at h
    obtain ⟨recs, hrecs, more, hmore, rfl⟩ := h
    intro rec hrec
    rcases List.mem_append.mp hrec with hmem | hmem
    · obtain ⟨card, hcard, he⟩ := extractCards_mem hrecs rec hmem
      refine ⟨0, Nat.succ_pos _, ?_, card, hcard, ?_⟩
      · simpa using extractCard_fmId he
      · simpa using he
    · obtain ⟨j, hj, hfm, card, hcard, he⟩ := ih hmore rec hmem
      have hadd : i + 1 + j = i + (j + 1) := by omega
      refine ⟨j + 1, Nat.succ_lt_succ hj, by omega, card, ?_, ?_⟩
      · exact hcard
      · rw [← hadd]
        exact he

/-- C7: every metadata record carries as front_matter_id the row index of
the front-matter record whose HTML was being parsed when it was emitted,
and that id indexes a row one of whose cards produced the record; the id
is fixed at parse time by the sequential loop. -/
theorem extractPaperMetadata_front_matter_id_source
    (rows : List FMRow) (out : List MetadataRecord)
    (h : extractPaperMetadata rows = some out) :
    ∀ rec ∈ out, ∃ hlt : rec.front_matter_id < rows.length,
      ∃ card ∈ (rows.get ⟨rec.front_matter_id, hlt⟩).html.cards,
        extractCard rec.front_matter_id card = some rec := by
  intro rec hrec
  obtain ⟨j, hj, hfm, card, hcard, he⟩ :=
    extractRowsFrom_mem h rec hrec
  rw [Nat.zero_add] at hfm
  subst hfm
  rw [Nat.zero_add] at he
  exact ⟨hj, card, hcard, he⟩

/-- Witness for C7 on the two synthetic front-matter rows. -/
theorem extractPaperMetadata_front_matter_id_source_witness :
    ∃ hlt : recB.front_matter_id < [rowP1, rowP2].length,
      ∃ card ∈ ([rowP1, rowP2].get ⟨recB.front_matter_id, hlt⟩).html.cards,
        extractCard recB.front_matter_id card = some recB :=
  extractPaperMetadata_front_matter_id_source [rowP1, rowP2] [recA, recB]
    (by decide) recB (by decide)

/-- All records of one card loop carry the front-matter id of the loop. -/
theorem extractCards_fmId_all {fmId : Nat} {cs : List CardFragment}
    {rs : List MetadataRecord} (h : extractCards fmId cs = some rs) :
    ∀ r ∈ rs, r.front_matter_id = fmId := by
  intro r hr
  obtain ⟨c, _, he⟩ := extractCards_mem h r hr
  exact extractCard_fmId he

/-- Lower bound on the front-matter ids emitted by the row loop. -/
theorem extractRowsFrom_lb {rows : List FMRow} {i : Nat}
    {out : List MetadataRecord} (h : extractRowsFrom i rows = some out) :
    ∀ rec ∈ out, i ≤ rec.front_matter_id := by
  intro rec hrec
  obtain ⟨j, _, hfm, _, _, _⟩ := extractRowsFrom_mem h rec hrec
  omega

/-- The front-matter ids emitted by the row loop are nondecreasing. -/
theorem extractRowsFrom_pairwise {rows : List FMRow} {i : Nat}
    {out : List MetadataRecord} (h : extractRowsFrom i rows = some out) :
    List.Pairwise (fun a b => a.front_matter_id ≤ b.front_matter_id) out := by
  induction rows generalizing i out with
  | nil =>
    rw [extractRowsFrom_nil] at h
    injection h with h
    subst h
    exact List.Pairwise.nil
  | cons row rest ih =>
    rw [extractRowsFrom_cons] at h
    simp only [Option.bind_eq_some, Option.some.injEq] at h
    obtain ⟨recs, hrecs, more, hmore, rfl⟩ := h
    refine List.pairwise_append.mpr ⟨?_, ih hmore, ?_⟩
    · exact List.pairwise_of_forall_mem_list (fun a ha b hb => by
        rw [extractCards_fmId_all hrecs a ha, extractCards_fmId_all hrecs b hb])
    · intro a ha b hb
      have h1 := extractCards_fmId_all hrecs a ha
      have h2 := extractRowsFrom_lb hmore b hb
      omega

/-- The row loop output is the concatenation of one block per row, each
block being that row's records in card order. -/
theorem extractRowsFrom_groups {rows : List FMRow} {i : Nat}
    {out : List MetadataRecord} (h : extractRowsFrom i rows = some out) :
    ∃ groups : List (List MetadataRecord),
      out = groups.flatten ∧ groups.length = rows.length ∧
      ∀ k, ∀ hk : k < rows.length, ∃ g, groups.get? k = some g ∧
        extractCards (i + k) (rows.get ⟨k, hk⟩).html.cards = some g := by
  induction rows generalizing i out with
  | nil =>
    rw [extractRowsFrom_nil] at h
    injection h with h
    subst h
    exact ⟨[], rfl, rfl, fun k hk => absurd hk (Nat.not_lt_zero k)⟩
  | cons row rest ih =>
    rw [extractRowsFrom_cons] at h
    simp only [Option.bind_eq_some, Option.some.injEq] at h
    obtain ⟨recs, hrecs, more, hmore, rfl⟩ := h
    obtain ⟨groups, hflat, hlen, hget⟩ := ih hmore
    refine ⟨recs :: groups, by simp [hflat], by simp [hlen], ?_⟩
    intro k hk
    cases k with
    | zero =>
      refine ⟨recs, rfl, ?_⟩
      simpa using hrecs
    | succ k =>
      obtain ⟨g, hg, he⟩ := hget k (Nat.lt_of_succ_lt_succ hk)
      refine ⟨g, by simpa using hg, ?_⟩
      have hadd : i + (k + 1) = i + 1 + k := by omega
      rw [hadd]
      exact he

/-- C10: along the output of extractPaperMetadata the front_matter_id is
nondecreasing in the output position, and the records of each
front-matter page form one consecutive block in the order of the paper
cards of that page, blocks in page order. -/
theorem extractPaperMetadata_front_matter_id_monotone
    (rows : List FMRow) (out : List MetadataRecord)
    (h : extractPaperMetadata rows = some out) :
    (∀ i j, ∀ hi : i < out.length, ∀ hj : j < out.length, i < j →
      (out.get ⟨i, hi⟩).front_matter_id ≤ (out.get ⟨j, hj⟩).front_matter_id) ∧
    ∃ groups : List (List MetadataRecord),
      out = groups.flatten ∧ groups.length = rows.length ∧
      ∀ k, ∀ hk : k < rows.length, ∃ g, groups.get? k = some g ∧
        extractCards k (rows.get ⟨k, hk⟩).html.cards = some g := by
  constructor
  · have hpw := extractRowsFrom_pairwise h
    intro i j hi hj hij
    exact List.pairwise_iff_get.mp hpw ⟨i, hi⟩ ⟨j, hj⟩ hij
  · have hg := extractRowsFrom_groups h
    simpa using hg

/-- Witness for C10 on the two synthetic front-matter rows. -/
theorem extractPaperMetadata_front_matter_id_monotone_witness :
    (∀ i j, ∀ hi : i < [recA, recB].length, ∀ hj : j < [recA, recB].length,
      i < j → ([recA, recB].get ⟨i, hi⟩).front_matter_id ≤
        ([recA, recB].get ⟨j, hj⟩).front_matter_id) ∧
    ∃ groups : List (List MetadataRecord),
      [recA, recB] = groups.flatten ∧ groups.length = [rowP1, rowP2].length ∧
      ∀ k, ∀ hk : k < [rowP1, rowP2].length, ∃ g, groups.get? k = some g ∧
        extractCards k ([rowP1, rowP2].get ⟨k, hk⟩).html.cards = some g :=
  extractPaperMetadata_front_matter_id_monotone [rowP1, rowP2] [recA, recB]
    (by decide)

/-- Unfolding equation of the repository loop on nil. -/
theorem extractRepositoryFromMetadata_nil :
    extractRepositoryFromMetadata [] = some [] :=
  rfl

/-- Every task pair of doiTasks indexes the metadata record holding its
doi. -/
theorem doiTasks_mem {mdRecs : List MetadataRecord} {i : Nat} {d : String}
    (h : (i, d) ∈ doiTasks mdRecs) :
    ∃ hi : i < mdRecs.length, (mdRecs.get ⟨i, hi⟩).doi = d := by
  rw [doiTasks, List.mem_enum_iff_getElem?] at h
  rw [List.getElem?_map, Option.map_eq_some'] at h
  obtain ⟨m, hm, hd⟩ := h
  rw [List.getElem?_eq_some] at hm
  obtain ⟨hi, hmi⟩ := hm
  exact ⟨hi, by rw [List.get_eq_getElem, hmi, hd]⟩

/-- Every collected doi-fetch result pairs a task of the batch with the
response the oracle gave for that task's doi. -/
theorem doiFetchResults_mem {net : String → Option (Response LandingHtml)}
    {tasks : List (Nat × String)} {t : Nat × Response LandingHtml}
    (h : t ∈ doiFetchResults net tasks) :
    ∃ d, (t.1, d) ∈ tasks ∧ net d = some t.2 := by
  rw [doiFetchResults, List.mem_filterMap] at h
  obtain ⟨p, hp, hf⟩ := h
  rw [Option.map_eq_some'] at hf
  obtain ⟨r, hr, ht⟩ := hf
  subst ht
  exact ⟨p.2, hp, hr⟩

/-- Inversion of the per-response repository extraction. -/
theorem extractRepoRecord_eq_some {t : Nat × Response LandingHtml}
    {rec : SoftwareRecord} (h : extractRepoRecord t = some rec) :
    t.2.content.repoAnchor = some rec.repository_url ∧
    rec.metadata_id = t.1 ∧ rec.status_code = t.2.status_code ∧
    rec.html = t.2.content := by
  simp only [extractRepoRecord, Option.map_eq_some'] at h
  obtain ⟨a, ha, rfl⟩ := h
  exact ⟨ha, rfl, rfl, rfl⟩

/-- Every record of a successful repository pass comes from one collected
(taskIndex, response) pair. -/
theorem extractRepositoryFromMetadata_mem
    {resps : List (Nat × Response LandingHtml)} {out : List SoftwareRecord}
    (h : extractRepositoryFromMetadata resps = some out) :
    ∀ rec ∈ out, ∃ t ∈ resps, extractRepoRecord t = some rec := by
  induction resps generalizing out with
  | nil =>
    rw [extractRepositoryFromMetadata_nil] at h
    injection h with h
    subst h
    intro rec hrec
    exact absurd hrec (List.not_mem_nil rec)
  | cons t ts ih =>
    rw [extractRepositoryFromMetadata_cons] at h
    simp only [Option.bind_eq_some, Option.some.injEq] at h
    obtain ⟨x, hx, xs, hxs, rfl⟩ := h
    intro rec hrec
    rcases List.mem_cons.mp hrec with rfl | hrec
    · exact ⟨t, List.mem_cons_self t ts, hx⟩
    · obtain ⟨u, hu, he⟩ := ih hxs rec hrec
      exact ⟨u, List.mem_cons_of_mem t hu, he⟩

/-- C2: under any completion order of the doi fetches, every emitted
software record carries a metadata_id below the metadata count, and the
oracle response for the doi of exactly that metadata record is the one the
record was extracted from (the id is the carried task index, never the
position in the result collection). -/
theorem extractRepositoryFromMetadata_carried_id
    (net : String → Option (Response LandingHtml))
    (mdRecs : List MetadataRecord)
    (resps : List (Nat × Response LandingHtml)) (out : List SoftwareRecord)
    (hperm : resps.Perm (doiFetchResults net (doiTasks mdRecs)))
    (hrun : extractRepositoryFromMetadata resps = some out) :
    ∀ rec ∈ out, ∃ hlt : rec.metadata_id < mdRecs.length,
      ∃ r, net (mdRecs.get ⟨rec.metadata_id, hlt⟩).doi = some r ∧
        r.status_code = rec.status_code ∧ r.content = rec.html ∧
        r.content.repoAnchor = some rec.repository_url := by
  intro rec hrec
  obtain ⟨t, ht, he⟩ := extractRepositoryFromMetadata_mem hrun rec hrec
  have ht' : t ∈ doiFetchResults net (doiTasks mdRecs) := hperm.mem_iff.mp ht
  obtain ⟨d, hd, hnet⟩ := doiFetchResults_mem ht'
  obtain ⟨ha, hmid, hsc, hhtml⟩ := extractRepoRecord_eq_some he
  rw [hmid]
  obtain ⟨hi, hdoi⟩ := doiTasks_mem hd
  refine ⟨hi, t.2, ?_, hsc.symm, hhtml.symm, ha⟩
  rw [hdoi]
  exact hnet

/-- Witness for C2 with the two synthetic metadata records and the doi
fetches completing in reverse order. -/
theorem extractRepositoryFromMetadata_carried_id_witness :
    ∃ hlt : swA.metadata_id < [recA, recB].length,
      ∃ r, netLanding ([recA, recB].get ⟨swA.metadata_id, hlt⟩).doi = some r ∧
        r.status_code = swA.status_code ∧ r.content = swA.html ∧
        r.content.repoAnchor = some swA.repository_url :=
  extractRepositoryFromMetadata_carried_id netLanding [recA, recB]
    [(1, landRespB), (0, landRespA)] [swB, swA] (by decide) (by decide)
    swA (by decide)

/-- When every collected landing page has its repository link, the
repository pass succeeds and emits one record per collected response, in
collection order, carrying the collected task indices. -/
theorem extractRepositoryFromMetadata_all_links
    {resps : List (Nat × Response LandingHtml)}
    (hok : ∀ t ∈ resps, t.2.content.repoAnchor.isSome = true) :
    ∃ out, extractRepositoryFromMetadata resps = some out ∧
      out.map (fun rec => rec.metadata_id) = resps.map Prod.fst := by
  induction resps with
  | nil => exact ⟨[], rfl, rfl⟩
  | cons t ts ih =>
    obtain ⟨out, ho, hm⟩ := ih (fun u hu => hok u (List.mem_cons_of_mem t hu))
    have h1 := hok t (List.mem_cons_self t ts)
    obtain ⟨a, ha⟩ := Option.isSome_iff_exists.mp h1
    refine ⟨{ metadata_id := t.1, status_code := t.2.status_code,
              repository_url := a, html := t.2.content } :: out, ?_, ?_⟩
    · rw [extractRepositoryFromMetadata_cons]
      simp [extractRepoRecord, ha, ho]
    · simp [hm]

/-- The task indices of the collected doi-fetch results are exactly the
indices of the tasks whose fetch succeeded, in task order. -/
theorem doiFetchResults_map_fst (net : String → Option (Response LandingHtml))
    (tasks : List (Nat × String)) :
    (doiFetchResults net tasks).map Prod.fst =
      tasks.filterMap (fun t => if (net t.2).isSome then some t.1 else none) := by
  induction tasks with
  | nil => rfl
  | cons t ts ih =>
    simp only [doiFetchResults, List.filterMap_cons, getPage] at *
    cases hn : net t.2 with
    | none => simpa [hn] using ih
    | some r => simpa [hn] using ih

/-- C5 (amended): under any completion order, a doi whose fetch raised is
merely absent and the pass returns normally with one record per remaining
doi, carrying exactly the successfully fetched task indices; this holds
provided every fetched landing page has its repository link, for when some
fetched page lacks the vertical button group the whole pass aborts. -/
theorem extractRepositoryFromMetadata_fetch_failures_skipped
    (net : String → Option (Response LandingHtml))
    (mdRecs : List MetadataRecord)
    (resps : List (Nat × Response LandingHtml))
    (hperm : resps.Perm (doiFetchResults net (doiTasks mdRecs)))
    (hok : ∀ t ∈ resps, t.2.content.repoAnchor.isSome = true) :
    ∃ out, extractRepositoryFromMetadata resps = some out ∧
      out.map (fun rec => rec.metadata_id) = resps.map Prod.fst ∧
      (out.map (fun rec => rec.metadata_id)).Perm
        ((doiTasks mdRecs).filterMap (fun t =>
          if (net t.2).isSome then some t.1 else none)) := by
  obtain ⟨out, ho, hm⟩ := extractRepositoryFromMetadata_all_links hok
  refine ⟨out, ho, hm, ?_⟩
  rw [hm, ← doiFetchResults_map_fst]
  exact hperm.map Prod.fst

/-- Witness for the amended C5: one of the three doi fetches raises, the
others complete in reverse order, and the pass still returns records for
exactly the two fetched dois. -/
theorem extractRepositoryFromMetadata_fetch_failures_skipped_witness :
    ∃ out, extractRepositoryFromMetadata [(1, landRespB), (0, landRespA)] =
        some out ∧
      out.map (fun rec => rec.metadata_id) =
        [(1, landRespB), (0, landRespA)].map Prod.fst ∧
      (out.map (fun rec => rec.metadata_id)).Perm
        ((doiTasks [recA, recB, recNoPage]).filterMap (fun t =>
          if (netLanding t.2).isSome then some t.1 else none)) :=
  extractRepositoryFromMetadata_fetch_failures_skipped netLanding
    [recA, recB, recNoPage] [(1, landRespB), (0, landRespA)]
    (by decide) (by decide)

/-- C5 counterexample: both dois fetch successfully, the second landing
page has its repository link, but the first lacks the vertical button
group, and instead of omitting one record and returning the rest the
whole pass aborts. -/
theorem extractRepositoryFromMetadata_missing_link_aborts_cex :
    (doiFetchResults netLandingNoGroup (doiTasks [recA, recB])).length = 2 ∧
    (netLandingNoGroup recB.doi).map
      (fun r => r.content.repoAnchor.isSome) = some true ∧
    extractRepositoryFromMetadata
      (doiFetchResults netLandingNoGroup (doiTasks [recA, recB])) = none := by
  exact ⟨by decide, by decide, by decide⟩

/-- Unfolding equation of the response-row loop on nil. -/
theorem extractRespRows_nil : extractRespRows [] = some [] :=
  rfl

/-- A successful response-row loop is the filterMap of the row builder. -/
theorem extractRespRows_eq_filterMap {resps : List (Response FrontHtml)}
    {rows : List FMRow} (h : extractRespRows resps = some rows) :
    rows = resps.filterMap mkFMRow := by
  induction resps generalizing rows with
  | nil =>
    rw [extractRespRows_nil] at h
    injection h with h
    subst h
    rfl
  | cons r rs ih =>
    rw [extractRespRows_cons] at h
    simp only [Option.bind_eq_some, Option.some.injEq] at h
    obtain ⟨row, hrow, rows', hrows', rfl⟩ := h
    simp [List.filterMap_cons, hrow, ih hrows']

/-- A successful response-row loop parsed a page from every response. -/
theorem extractRespRows_some_mem {resps : List (Response FrontHtml)}
    {rows : List FMRow} (h : extractRespRows resps = some rows) :
    ∀ r ∈ resps, (mkFMRow r).isSome = true := by
  induction resps generalizing rows with
  | nil =>
    intro r hr
    exact absurd hr (List.not_mem_nil r)
  | cons r rs ih =>
    rw [extractRespRows_cons] at h
    simp only [Option.bind_eq_some, Option.some.injEq] at h
    obtain ⟨row, hrow, rows', hrows', rfl⟩ := h
    intro u hu
    rcases List.mem_cons.mp hu with rfl | hu
    · simp [hrow]
    · exact ih hrows' u hu

/-- The response-row loop succeeds when every response yields a row. -/
theorem extractRespRows_isSome {resps : List (Response FrontHtml)}
    (hall : ∀ r ∈ resps, (mkFMRow r).isSome = true) :
    ∃ rows, extractRespRows resps = some rows := by
  induction resps with
  | nil => exact ⟨[], rfl⟩
  | cons r rs ih =>
    obtain ⟨rows, hrows⟩ := ih (fun u hu => hall u (List.mem_cons_of_mem r hu))
    obtain ⟨row, hrow⟩ :=
      Option.isSome_iff_exists.mp (hall r (List.mem_cons_self r rs))
    refine ⟨row :: rows, ?_⟩
    rw [extractRespRows_cons]
    simp [hrow, hrows]

/-- When every response url parses to a page number, the response-row loop
succeeds and reproduces those page numbers in order. -/
theorem extractRespRows_spec {resps : List (Response FrontHtml)}
    {pages : List Nat}
    (hp : resps.map (fun r => parsePage r.url) = pages.map some) :
    ∃ rows, extractRespRows resps = some rows ∧
      rows.map (fun row => row.page) = pages := by
  induction resps generalizing pages with
  | nil =>
    cases pages with
    | nil => exact ⟨[], rfl, rfl⟩
    | cons p ps => simp at hp
  | cons r rs ih =>
    cases pages with
    | nil => simp at hp
    | cons p ps =>
      simp only [List.map_cons, List.cons.injEq] at hp
      obtain ⟨hp1, hp2⟩ := hp
      obtain ⟨rows, hrows, hmap⟩ := ih hp2
      refine ⟨{ url := r.url, page := p, status_code := r.status_code,
                html := r.content } :: rows, ?_, ?_⟩
      · rw [extractRespRows_cons]
        simp [mkFMRow, hp1, hrows]
      · simp [hmap]

/-- The page-sort output is nondecreasing in the page key. -/
theorem mergeSort_pairwise_le (l : List FMRow) :
    List.Pairwise (fun a b => a.page ≤ b.page) (l.mergeSort rowLe) := by
  have h := @List.sorted_mergeSort FMRow rowLe
    (fun a b c hab hbc => by
      simp only [rowLe, decide_eq_true_eq] at *
      omega)
    (fun a b => by
      simp only [rowLe, Bool.or_eq_true, decide_eq_true_eq]
      omega) l
  exact h.imp (fun h => by simpa [rowLe] using h)

/-- Nondecreasing page keys without duplicates are strictly increasing. -/
theorem pairwise_lt_of_le_nodup {l : List FMRow}
    (hle : List.Pairwise (fun a b => a.page ≤ b.page) l)
    (hnd : (l.map (fun row => row.page)).Nodup) :
    List.Pairwise (fun a b => a.page < b.page) l := by
  have hne : List.Pairwise (fun a b : FMRow => a.page ≠ b.page) l :=
    List.pairwise_map.mp hnd
  exact (hle.and hne).imp (fun h => lt_of_le_of_ne h.1 h.2)

/-- C1: when the collected listing responses encode each page 1..n exactly
once, the front-matter assembler succeeds and row k of its output (the row
stored with id k) is the response whose url encodes page k + 1, and the
output is the same for every completion order of the fetches. -/
theorem getJOSSHTMLFrontMatter_page_order
    (resps : List (Response FrontHtml)) (pages : List Nat) (n : Nat)
    (hp : resps.map (fun r => parsePage r.url) = pages.map some)
    (hperm : pages.Perm (List.range' 1 n)) :
    ∃ rows, getJOSSHTMLFrontMatter resps = some rows ∧
      rows.map (fun row => row.page) = List.range' 1 n ∧
      (∀ k, ∀ hk : k < rows.length, (rows.get ⟨k, hk⟩).page = k + 1) ∧
      (∀ resps', resps'.Perm resps →
        getJOSSHTMLFrontMatter resps' = some rows) := by
  obtain ⟨rows0, h0, hmap0⟩ := extractRespRows_spec hp
  refine ⟨rows0.mergeSort rowLe, ?_, ?_, ?_, ?_⟩
  case _ => simp [getJOSSHTMLFrontMatter, h0]
  all_goals
    have hperm0 : (rows0.mergeSort rowLe).Perm rows0 :=
      List.mergeSort_perm rows0 rowLe
    have hpagesperm :
        ((rows0.mergeSort rowLe).map (fun row => row.page)).Perm
          (List.range' 1 n) := by
      refine ((hperm0.map (fun row => row.page)).trans ?_)
      rw [hmap0]
      exact hperm
    have hnd : ((rows0.mergeSort rowLe).map (fun row => row.page)).Nodup :=
      hpagesperm.nodup_iff.mpr (List.nodup_range' 1 n)
    have hplt : List.Pairwise (fun a b : FMRow => a.page < b.page)
        (rows0.mergeSort rowLe) :=
      pairwise_lt_of_le_nodup (mergeSort_pairwise_le rows0) hnd
    have hmaplt : List.Pairwise (fun a b : Nat => a < b)
        ((rows0.mergeSort rowLe).map (fun row => row.page)) :=
      List.pairwise_map.mpr hplt
    have hmapeq : (rows0.mergeSort rowLe).map (fun row => row.page) =
        List.range' 1 n := by
      haveI : IsAntisymm Nat (fun a b : Nat => a < b) :=
        ⟨fun a b h h' => absurd h' (Nat.lt_asymm h)⟩
      exact List.eq_of_perm_of_sorted hpagesperm hmaplt
        (List.pairwise_lt_range' 1 n)
  case _ => exact hmapeq
  case _ =>
    intro k hk
    have hlen : (rows0.mergeSort rowLe).length = n := by
      have := congrArg List.length hmapeq
      simpa using this
    have h1 : ((rows0.mergeSort rowLe).map (fun row => row.page))[k]? =
        some (1 + k) := by
      rw [hmapeq]
      rw [List.getElem?_eq_getElem (by simpa [hlen] using hk)]
      simp [List.getElem_range']
    rw [List.getElem?_map] at h1
    rw [List.getElem?_eq_getElem hk] at h1
    simp only [Option.map_some', Option.some.injEq] at h1
    have h2 : (rows0.mergeSort rowLe)[k].page = k + 1 := by omega
    exact h2
  case _ =>
    intro resps' hp'
    have hall : ∀ r ∈ resps', (mkFMRow r).isSome = true := fun r hr =>
      extractRespRows_some_mem h0 r (hp'.mem_iff.mp hr)
    obtain ⟨rows0', h0'⟩ := extractRespRows_isSome hall
    have hpr : rows0'.Perm rows0 := by
      rw [extractRespRows_eq_filterMap h0', extractRespRows_eq_filterMap h0]
      exact hp'.filterMap mkFMRow
    have hperm' : (rows0'.mergeSort rowLe).Perm (rows0.mergeSort rowLe) :=
      ((List.mergeSort_perm rows0' rowLe).trans hpr).trans hperm0.symm
    have hnd' : ((rows0'.mergeSort rowLe).map (fun row => row.page)).Nodup :=
      ((hperm'.map (fun row => row.page)).nodup_iff).mpr hnd
    have hplt' : List.Pairwise (fun a b : FMRow => a.page < b.page)
        (rows0'.mergeSort rowLe) :=
      pairwise_lt_of_le_nodup (mergeSort_pairwise_le rows0') hnd'
    have heq : rows0'.mergeSort rowLe = rows0.mergeSort rowLe := by
      haveI : IsAntisymm FMRow (fun a b : FMRow => a.page < b.page) :=
        ⟨fun a b h h' => absurd h' (Nat.lt_asymm h)⟩
      exact List.eq_of_perm_of_sorted hperm' hplt' hplt
    rw [getJOSSHTMLFrontMatter, h0']
    simp [heq]

/-- Witness for C1: the two synthetic listing pages fetched in reverse
completion order. -/
theorem getJOSSHTMLFrontMatter_page_order_witness :
    ∃ rows, getJOSSHTMLFrontMatter [pageResp2, pageResp1] = some rows ∧
      rows.map (fun row => row.page) = List.range' 1 2 ∧
      (∀ k, ∀ hk : k < rows.length, (rows.get ⟨k, hk⟩).page = k + 1) ∧
      (∀ resps', resps'.Perm [pageResp2, pageResp1] →
        getJOSSHTMLFrontMatter resps' = some rows) :=
  getJOSSHTMLFrontMatter_page_order [pageResp2, pageResp1] [2, 1] 2
    (by decide) (by decide)

/-- C8: each persisted table stores ids 0..n-1 in insertion order (the
precomputed DataFrame index written as the explicit id column), and every
foreign key written by a later stage is an id already present in the
referenced table, which main writes first. -/
theorem pipeline_ids_contiguous_and_fks_valid
    (netP : String → Option (Response FrontHtml))
    (netD : String → Option (Response LandingHtml)) (pages : Nat)
    (respsP : List (Response FrontHtml)) (fmRows : List FMRow)
    (mdRecs : List MetadataRecord)
    (respsD : List (Nat × Response LandingHtml)) (swRecs : List SoftwareRecord)
    (hpermP : respsP.Perm (pageFetchResults netP pages))
    (hfm : getJOSSHTMLFrontMatter respsP = some fmRows)
    (hmd : extractPaperMetadata fmRows = some mdRecs)
    (hpermD : respsD.Perm (doiFetchResults netD (doiTasks mdRecs)))
    (hsw : extractRepositoryFromMetadata respsD = some swRecs) :
    (persistTable fmRows).map Prod.fst = List.range fmRows.length ∧
    (persistTable mdRecs).map Prod.fst = List.range mdRecs.length ∧
    (persistTable swRecs).map Prod.fst = List.range swRecs.length ∧
    (∀ rec ∈ mdRecs,
      rec.front_matter_id ∈ (persistTable fmRows).map Prod.fst) ∧
    (∀ rec ∈ swRecs,
      rec.metadata_id ∈ (persistTable mdRecs).map Prod.fst) := by
  refine ⟨List.enum_map_fst fmRows, List.enum_map_fst mdRecs,
    List.enum_map_fst swRecs, ?_, ?_⟩
  · intro rec hrec
    have hrange := List.enum_map_fst fmRows
    rw [persistTable, hrange, List.mem_range]
    obtain ⟨j, hj, hfmid, _, _, _⟩ :=
      extractRowsFrom_mem hmd rec hrec
    omega
  · intro rec hrec
    have hrange := List.enum_map_fst mdRecs
    rw [persistTable, hrange, List.mem_range]
    obtain ⟨t, ht, he⟩ := extractRepositoryFromMetadata_mem hsw rec hrec
    obtain ⟨d, hd, _⟩ := doiFetchResults_mem (hpermD.mem_iff.mp ht)
    obtain ⟨_, hmid, _, _⟩ := extractRepoRecord_eq_some he
    obtain ⟨hi, _⟩ := doiTasks_mem hd
    omega

/-- The page sort is determined: any strictly page-sorted reordering of
the input is the sort output. -/
theorem mergeSort_eq_of_sorted {l l2 : List FMRow} (hp : l.Perm l2)
    (hnd : (l2.map (fun row => row.page)).Nodup)
    (hs : List.Pairwise (fun a b : FMRow => a.page < b.page) l2) :
    l.mergeSort rowLe = l2 := by
  have hperm : (l.mergeSort rowLe).Perm l2 :=
    (List.mergeSort_perm l rowLe).trans hp
  have hnd2 : ((l.mergeSort rowLe).map (fun row => row.page)).Nodup :=
    ((hperm.map (fun row => row.page)).nodup_iff).mpr hnd
  have hlt : List.Pairwise (fun a b : FMRow => a.page < b.page)
      (l.mergeSort rowLe) :=
    pairwise_lt_of_le_nodup (mergeSort_pairwise_le l) hnd2
  haveI : IsAntisymm FMRow (fun a b : FMRow => a.page < b.page) :=
    ⟨fun a b h h2 => absurd h2 (Nat.lt_asymm h)⟩
  exact List.eq_of_perm_of_sorted hperm hlt hs

/-- Concrete evaluation of the assembler on the two synthetic pages
fetched in reverse completion order. -/
theorem frontMatter_eval_pair :
    getJOSSHTMLFrontMatter [pageResp2, pageResp1] = some [rowP1, rowP2] := by
  have h1 : extractRespRows [pageResp2, pageResp1] = some [rowP2, rowP1] := by
    decide
  unfold getJOSSHTMLFrontMatter
  rw [h1]
  simp only [Option.map_some', Option.some.injEq]
  exact mergeSort_eq_of_sorted (by decide) (by decide) (by decide)

/-- Witness for C8: the full synthetic run of two listing pages, each with
one card, both fetch batches completing in reverse order. -/
theorem pipeline_ids_contiguous_and_fks_valid_witness :
    (persistTable [rowP1, rowP2]).map Prod.fst =
      List.range [rowP1, rowP2].length ∧
    (persistTable [recA, recB]).map Prod.fst =
      List.range [recA, recB].length ∧
    (persistTable [swB, swA]).map Prod.fst =
      List.range [swB, swA].length ∧
    (∀ rec ∈ [recA, recB],
      rec.front_matter_id ∈ (persistTable [rowP1, rowP2]).map Prod.fst) ∧
    (∀ rec ∈ [swB, swA],
      rec.metadata_id ∈ (persistTable [recA, recB]).map Prod.fst) :=
  pipeline_ids_contiguous_and_fks_valid netPages netLanding 2
    [pageResp2, pageResp1] [rowP1, rowP2] [recA, recB]
    [(1, landRespB), (0, landRespA)] [swB, swA]
    (by decide) frontMatter_eval_pair (by decide) (by decide) (by decide)
